import Mathlib

/-!
Verification of the incremental validation + rendering pipeline of
`src/main.py` (the streaming "whales" table program).

The program streams structured output from a producer, validates each
snapshot against the `Whale` TypedDict schema (`allow_partial = not last`),
suppresses validation errors whose every entry has type `"missing"` at
location `("response",)`, and renders the validated records as a rich
table, with `…` as the placeholder for falsy optional fields.

Numeric values are modelled as `Int` (the program formats floats with
`:0.0f`, i.e. as whole numbers; none of the verified properties depend on
fractional behaviour).
-/

/-- A decoded JSON scalar as it appears in a raw record candidate. -/
inductive JsonVal where
  | str (s : String)
  | num (n : Int)
deriving DecidableEq, Repr

/-- A raw record candidate: one element of the parsed top-level `response`
list, before schema validation.  Each `Whale` field is either absent or
holds some raw JSON value (possibly of the wrong type). -/
structure RawCandidate where
  name : Option JsonVal
  length : Option JsonVal
  weight : Option JsonVal
  ocean : Option JsonVal
  description : Option JsonVal
deriving DecidableEq, Repr

/-- A raw snapshot after structural parsing: `response = none` when the
top-level collection has not yet appeared in the partial output (or the
output is not yet parseable that far); `response = some cs` once the
collection is present with candidates `cs`. -/
structure Snapshot where
  response : Option (List RawCandidate)
deriving DecidableEq, Repr

/-- A validated record (`Whale` TypedDict of `src/main.py` lines 16-28).
Required fields `name` and `length` are still `Option`s because partial
validation of the trailing record may leave a required field absent. -/
structure Whale where
  name : Option String
  length : Option Int
  weight : Option Int
  ocean : Option String
  description : Option String
deriving DecidableEq, Repr

/-- One entry of a pydantic `ValidationError.errors()` list, restricted to
the two attributes the program inspects: `type` and `loc`. -/
structure PError where
  etype : String
  loc : List String
deriving DecidableEq, Repr

/-- Validate one string-typed schema field of the candidate at index `idx`:
absent and required without `allowMissing` is a `missing` error; a present
non-string value is a type error; otherwise the decoded value (or nothing)
is kept.  Follows the field rules of spec §4.1. -/
def vStr (idx : Nat) (fname : String) (req allowMissing : Bool) :
    Option JsonVal → List PError × Option String
  | none =>
      (if req && !allowMissing then [⟨"missing", ["response", toString idx, fname]⟩]
       else [], none)
  | some (JsonVal.str s) => ([], some s)
  | some (JsonVal.num _) => ([⟨"string_type", ["response", toString idx, fname]⟩], none)

/-- Validate one numeric schema field, with an optional `ge` lower bound
(the `Whale.weight` field declares `ge=50`).  A present value violating the
bound is a constraint error; these are produced whether or not missing
required fields are being tolerated (spec §4.1: type and constraint errors
are never suppressed). -/
def vNum (idx : Nat) (fname : String) (req allowMissing : Bool) (lo : Option Int) :
    Option JsonVal → List PError × Option Int
  | none =>
      (if req && !allowMissing then [⟨"missing", ["response", toString idx, fname]⟩]
       else [], none)
  | some (JsonVal.num n) =>
      match lo with
      | none => ([], some n)
      | some l =>
          if l ≤ n then ([], some n)
          else ([⟨"greater_than_equal", ["response", toString idx, fname]⟩], none)
  | some (JsonVal.str _) => ([⟨"float_type", ["response", toString idx, fname]⟩], none)

/-- Validate one candidate against the `Whale` schema: `name : str` and
`length : float` required, `weight : float (ge=50)`, `ocean : str` and
`description : str` optional.  Returns the collected field errors and the
(possibly incomplete) decoded record. -/
def validateCandidate (idx : Nat) (allowMissing : Bool) (c : RawCandidate) :
    List PError × Whale :=
  let rn := vStr idx "name" true allowMissing c.name
  let rl := vNum idx "length" true allowMissing none c.length
  let rw := vNum idx "weight" false allowMissing (some 50) c.weight
  let ro := vStr idx "ocean" false allowMissing c.ocean
  let rd := vStr idx "description" false allowMissing c.description
  (rn.1 ++ rl.1 ++ rw.1 ++ ro.1 ++ rd.1, ⟨rn.2, rl.2, rw.2, ro.2, rd.2⟩)

/-- Validate the candidate list with the relaxed-then-strict rule of spec
§4.3 steps 2-3: every interior candidate is validated strictly
(`allowMissing = false`); only the last candidate is validated with
`allowMissing = allowPartial`.  `idx` is the index of the first candidate. -/
def validateListAux (allowPartial : Bool) (idx : Nat) :
    List RawCandidate → List PError × List Whale
  | [] => ([], [])
  | [c] =>
      let r := validateCandidate idx allowPartial c
      (r.1, [r.2])
  | c :: c' :: cs =>
      let r := validateCandidate idx false c
      let rs := validateListAux allowPartial (idx + 1) (c' :: cs)
      (r.1 ++ rs.1, r.2 :: rs.2)

/-- Modelled from the spec: pydantic-ai's `validate_structured_result`
(called at `src/main.py` line 50), whose source is not part of this
repository.  Per spec §4.1/§4.3, it decodes the snapshot into the wrapper
object's `response` list and validates each candidate, tolerating missing
required fields only on the trailing candidate and only when
`allowPartial` is true; a snapshot in which the `response` collection has
not yet appeared raises a single error of type `"missing"` at location
`("response",)` — the error shape the handler at `src/main.py` lines 54-57
tests for, and a pydantic missing-field error whose shape does not depend
on `allowPartial`.  Any nonempty error list is raised as a
`ValidationError`; otherwise the list of decoded records is returned. -/
def validate_structured_result (snap : Snapshot) (allowPartial : Bool) :
    Except (List PError) (List Whale) :=
  match snap.response with
  | none => .error [⟨"missing", ["response"]⟩]
  | some cs =>
      let r := validateListAux allowPartial 0 cs
      if r.1.isEmpty then .ok r.2 else .error r.1

/-- The suppression test of `src/main.py` lines 54-57: the caught
`ValidationError` is swallowed (`continue`) exactly when every error entry
has `type == "missing"` and `loc == ("response",)`.  Note it does not
consult `last`. -/
def suppressible (errs : List PError) : Bool :=
  errs.all fun e => e.etype == "missing" && e.loc == ["response"]

/-- The display table built at `src/main.py` lines 62-83: title, caption,
fixed width, six column headers, and one row of six cells per whale. -/
structure DisplayTable where
  title : String
  caption : String
  width : Nat
  columns : List String
  rows : List (List String)
deriving DecidableEq, Repr

/-- The six cells of one table row (`src/main.py` lines 74-82) for row
number `wid`.  `whale["name"]` and `whale["length"]` are unguarded
subscripts, so an absent required field makes the row fail (KeyError),
modelled by `none`.  The optional fields use Python truthiness: a weight
that is `None` or `0` and an ocean/description that is `None` or `""`
render as the placeholder `…`. -/
def renderRow (wid : Nat) (w : Whale) : Option (List String) :=
  match w.name, w.length with
  | some nm, some ln =>
      some [toString wid, nm, toString ln,
        (match w.weight with
         | some v => if v == 0 then "…" else toString v
         | none => "…"),
        (match w.ocean with
         | some s => if s == "" then "…" else s
         | none => "…"),
        (match w.description with
         | some s => if s == "" then "…" else s
         | none => "…")]
  | _, _ => none

/-- Build the rows for `enumerate(whales, start=wid)`. -/
def renderRows (wid : Nat) : List Whale → Option (List (List String))
  | [] => some []
  | w :: ws =>
      match renderRow wid w, renderRows (wid + 1) ws with
      | some r, some rs => some (r :: rs)
      | _, _ => none

/-- Build the full display table (`src/main.py` lines 62-83).  The
function takes only the validated record sequence: `is_final` is not an
input of rendering. -/
def renderTable (ws : List Whale) : Option DisplayTable :=
  match renderRows 1 ws with
  | some rows =>
      some { title := "Species of Whale",
             caption := "Streaming Structured responses from GPT-4",
             width := 120,
             columns := ["ID", "Name", "Avg. Length (m)", "Avg. Weight (kg)",
                         "Ocean", "Description"],
             rows := rows }
  | none => none

/-- Outcome of one iteration of the driver loop at `src/main.py` lines
48-83: the cycle is skipped (`continue`), a table is rendered
(`live.update`), the loop body fails with a Python KeyError during row
building, or the `ValidationError` is re-raised (fatal). -/
inductive StepResult where
  | skip
  | rendered (t : DisplayTable)
  | renderError
  | fatal (errs : List PError)
deriving DecidableEq, Repr

/-- One iteration of the `async for message, last in ...` loop body:
validate with `allow_partial = not last`; on a `ValidationError`,
`continue` when `suppressible`, else re-raise; on success, build and show
the table. -/
def driverStep (snap : Snapshot) (last : Bool) : StepResult :=
  match validate_structured_result snap (!last) with
  | .error errs => if suppressible errs then .skip else .fatal errs
  | .ok whales =>
      match renderTable whales with
      | some t => .rendered t
      | none => .renderError

/-- Whether the loop body raised (`raise` at `src/main.py` line 60). -/
def StepResult.isFatal : StepResult → Bool
  | .fatal _ => true
  | _ => false

/-- The candidate is missing a required schema field (`name` or `length`). -/
def missingReq (c : RawCandidate) : Bool :=
  c.name.isNone || c.length.isNone

/-- A string-typed field slot is type-correct (absent or a string). -/
def jsonStrOk : Option JsonVal → Bool
  | none => true
  | some (JsonVal.str _) => true
  | some (JsonVal.num _) => false

/-- A numeric field slot is type- and constraint-correct. -/
def jsonNumOk (lo : Option Int) : Option JsonVal → Bool
  | none => true
  | some (JsonVal.num n) =>
      match lo with
      | none => true
      | some l => decide (l ≤ n)
  | some (JsonVal.str _) => false

/-- Every present field of the candidate has the declared type and
satisfies its constraint (so the only schema problem the candidate can
have is a missing required field). -/
def typeOk (c : RawCandidate) : Bool :=
  jsonStrOk c.name && jsonNumOk none c.length && jsonNumOk (some 50) c.weight &&
    jsonStrOk c.ocean && jsonStrOk c.description

/-- Candidate `c₂` informationally extends `c₁`: every field present in
`c₁` is still present in `c₂` (spec §3: later snapshots are supersets,
never retractions; values may refine, fields never disappear). -/
def candGrows (c₁ c₂ : RawCandidate) : Prop :=
  (c₁.name.isSome → c₂.name.isSome) ∧
  (c₁.length.isSome → c₂.length.isSome) ∧
  (c₁.weight.isSome → c₂.weight.isSome) ∧
  (c₁.ocean.isSome → c₂.ocean.isSome) ∧
  (c₁.description.isSome → c₂.description.isSome)

/-- Snapshot `s₂` informationally extends `s₁`: once the collection has
appeared it never disappears, the candidate count never shrinks, and each
already-seen candidate only grows. -/
def snapGrows (s₁ s₂ : Snapshot) : Prop :=
  match s₁.response, s₂.response with
  | none, _ => True
  | some _, none => False
  | some cs₁, some cs₂ =>
      cs₁.length ≤ cs₂.length ∧
      ∀ (i : Nat) c₁ c₂, cs₁[i]? = some c₁ → cs₂[i]? = some c₂ → candGrows c₁ c₂

/-! ### Helper lemmas about field validation -/

theorem vStr_req_errs_nil (idx : Nat) (f : String) (am : Bool) (v : Option JsonVal) :
    (vStr idx f true am v).1 = [] ↔
      (jsonStrOk v = true ∧ (am = true ∨ v.isSome = true)) := by
  cases v with
  | none => cases am <;> simp [vStr, jsonStrOk]
  | some jv => cases jv <;> simp [vStr, jsonStrOk]

theorem vStr_opt_errs_nil (idx : Nat) (f : String) (am : Bool) (v : Option JsonVal) :
    (vStr idx f false am v).1 = [] ↔ jsonStrOk v = true := by
  cases v with
  | none => simp [vStr, jsonStrOk]
  | some jv => cases jv <;> simp [vStr, jsonStrOk]

theorem vNum_req_errs_nil (idx : Nat) (f : String) (am : Bool) (v : Option JsonVal) :
    (vNum idx f true am none v).1 = [] ↔
      (jsonNumOk none v = true ∧ (am = true ∨ v.isSome = true)) := by
  cases v with
  | none => cases am <;> simp [vNum, jsonNumOk]
  | some jv => cases jv <;> simp [vNum, jsonNumOk]

theorem vNum_opt_errs_nil (idx : Nat) (f : String) (am : Bool) (lo : Option Int)
    (v : Option JsonVal) :
    (vNum idx f false am lo v).1 = [] ↔ jsonNumOk lo v = true := by
  cases v with
  | none => simp [vNum, jsonNumOk]
  | some jv =>
      cases jv with
      | str s => simp [vNum, jsonNumOk]
      | num n =>
          cases lo with
          | none => simp [vNum, jsonNumOk]
          | some l =>
              by_cases h : l ≤ n <;> simp [vNum, jsonNumOk, h]

theorem missingReq_false_iff (c : RawCandidate) :
    missingReq c = false ↔ (c.name.isSome = true ∧ c.length.isSome = true) := by
  cases hn : c.name <;> cases hl : c.length <;> simp [missingReq, hn, hl]

theorem validateCandidate_errs_nil (idx : Nat) (am : Bool) (c : RawCandidate) :
    (validateCandidate idx am c).1 = [] ↔
      (typeOk c = true ∧ (am = true ∨ missingReq c = false)) := by
  simp only [validateCandidate, List.append_eq_nil, typeOk, Bool.and_eq_true,
    missingReq_false_iff, vStr_req_errs_nil, vNum_req_errs_nil, vNum_opt_errs_nil,
    vStr_opt_errs_nil]
  tauto

theorem vStr_errs_loc (idx : Nat) (f : String) (req am : Bool) (v : Option JsonVal) :
    ∀ e ∈ (vStr idx f req am v).1, e.loc = ["response", toString idx, f] := by
  cases v with
  | none =>
      cases req <;> cases am <;> simp [vStr]
  | some jv => cases jv <;> simp [vStr]

theorem vNum_errs_loc (idx : Nat) (f : String) (req am : Bool) (lo : Option Int)
    (v : Option JsonVal) :
    ∀ e ∈ (vNum idx f req am lo v).1, e.loc = ["response", toString idx, f] := by
  cases v with
  | none => cases req <;> cases am <;> simp [vNum]
  | some jv =>
      cases jv with
      | str s => simp [vNum]
      | num n =>
          cases lo with
          | none => simp [vNum]
          | some l => by_cases h : l ≤ n <;> simp [vNum, h]

theorem validateCandidate_errs_loc (idx : Nat) (am : Bool) (c : RawCandidate) :
    ∀ e ∈ (validateCandidate idx am c).1, e.loc.length = 3 := by
  intro e he
  simp only [validateCandidate, List.mem_append] at he
  rcases he with ((((h | h) | h) | h) | h)
  · rw [vStr_errs_loc _ _ _ _ _ e h]; rfl
  · rw [vNum_errs_loc _ _ _ _ _ _ e h]; rfl
  · rw [vNum_errs_loc _ _ _ _ _ _ e h]; rfl
  · rw [vStr_errs_loc _ _ _ _ _ e h]; rfl
  · rw [vStr_errs_loc _ _ _ _ _ e h]; rfl

theorem validateListAux_errs_loc (ap : Bool) (idx : Nat) (cs : List RawCandidate) :
    ∀ e ∈ (validateListAux ap idx cs).1, e.loc.length = 3 := by
  induction cs generalizing idx with
  | nil => simp [validateListAux]
  | cons c cs ih =>
      cases cs with
      | nil =>
          intro e he
          exact validateCandidate_errs_loc idx ap c e he
      | cons c' cs' =>
          intro e he
          simp only [validateListAux, List.mem_append] at he
          rcases he with h | h
          · exact validateCandidate_errs_loc idx false c e h
          · exact ih (idx + 1) e h

theorem validateListAux_snd_length (ap : Bool) (idx : Nat) (cs : List RawCandidate) :
    (validateListAux ap idx cs).2.length = cs.length := by
  induction cs generalizing idx with
  | nil => simp [validateListAux]
  | cons c cs ih =>
      cases cs with
      | nil => simp [validateListAux]
      | cons c' cs' => simp [validateListAux, ih]

theorem validateListAux_errs_nil (ap : Bool) (idx : Nat) (cs : List RawCandidate) :
    (validateListAux ap idx cs).1 = [] ↔
      ((∀ c ∈ cs.dropLast, typeOk c = true ∧ missingReq c = false) ∧
       (∀ c ∈ cs.getLast?, typeOk c = true ∧ (ap = true ∨ missingReq c = false))) := by
  induction cs generalizing idx with
  | nil => simp [validateListAux]
  | cons c cs ih =>
      cases cs with
      | nil =>
          simp only [validateListAux, validateCandidate_errs_nil, List.dropLast_single,
            List.getLast?_singleton]
          simp
      | cons c' cs' =>
          simp only [validateListAux, List.append_eq_nil, validateCandidate_errs_nil,
            ih (idx + 1), List.dropLast_cons₂, List.mem_cons,
            List.getLast?_cons_cons]
          constructor
          · rintro ⟨⟨ht, hm⟩, hd, hl⟩
            refine ⟨?_, hl⟩
            intro x hx
            rcases hx with rfl | hx
            · exact ⟨ht, by tauto⟩
            · exact hd x hx
          · rintro ⟨hd, hl⟩
            have hc := hd c (Or.inl rfl)
            exact ⟨⟨hc.1, by tauto⟩, fun x hx => hd x (Or.inr hx), hl⟩

/-! ### Helper lemmas about the driver and the renderer -/

theorem suppressible_false_of_loc3 (errs : List PError) (hne : errs ≠ [])
    (hloc : ∀ e ∈ errs, e.loc.length = 3) : suppressible errs = false := by
  cases errs with
  | nil => exact absurd rfl hne
  | cons e es =>
      have h3 := hloc e (List.mem_cons_self e es)
      simp only [suppressible, List.all_cons, Bool.and_eq_false_iff]
      left
      rcases h2 : (e.loc == ["response"]) with _ | _
      · simp [h2]
      · exfalso
        have : e.loc = ["response"] := eq_of_beq h2
        rw [this] at h3
        simp at h3

theorem validate_some_ok_iff (cs : List RawCandidate) (ap : Bool) (ws : List Whale) :
    validate_structured_result ⟨some cs⟩ ap = .ok ws ↔
      ((validateListAux ap 0 cs).1 = [] ∧ ws = (validateListAux ap 0 cs).2) := by
  simp only [validate_structured_result]
  by_cases h : (validateListAux ap 0 cs).1 = []
  · rw [h]
    simp [eq_comm]
  · have hne : (validateListAux ap 0 cs).1.isEmpty = false := by
      rcases hh : (validateListAux ap 0 cs).1 with _ | ⟨e, es⟩
      · exact absurd hh h
      · rfl
    rw [hne]
    simp [h]

theorem driverStep_some_fatal_iff (cs : List RawCandidate) (last : Bool) :
    (driverStep ⟨some cs⟩ last).isFatal = true ↔
      (validateListAux (!last) 0 cs).1 ≠ [] := by
  simp only [driverStep, validate_structured_result]
  rcases h : (validateListAux (!last) 0 cs).1 with _ | ⟨e, es⟩
  · simp only [List.isEmpty, if_true]
    rcases hr : renderTable (validateListAux (!last) 0 cs).2 with _ | t <;>
      simp [StepResult.isFatal]
  · have hsup : suppressible (e :: es) = false := by
      refine suppressible_false_of_loc3 _ (by simp) ?_
      intro x hx
      refine validateListAux_errs_loc (!last) 0 cs x ?_
      rw [h]; exact hx
    simp [List.isEmpty, hsup, StepResult.isFatal]

theorem renderRows_length (wid : Nat) (ws : List Whale) (rs : List (List String))
    (h : renderRows wid ws = some rs) : rs.length = ws.length := by
  induction ws generalizing wid rs with
  | nil => simp [renderRows] at h; simp [← h]
  | cons w ws ih =>
      simp only [renderRows] at h
      rcases h1 : renderRow wid w with _ | r <;> rw [h1] at h
      · exact absurd h (by simp)
      · rcases h2 : renderRows (wid + 1) ws with _ | rs' <;> rw [h2] at h
        · exact absurd h (by simp)
        · cases h
          simp [ih (wid + 1) rs' h2]

theorem renderRows_total (wid : Nat) (ws : List Whale)
    (h : ∀ w ∈ ws, w.name.isSome = true ∧ w.length.isSome = true) :
    ∃ rs, renderRows wid ws = some rs := by
  induction ws generalizing wid with
  | nil => exact ⟨[], rfl⟩
  | cons w ws ih =>
      obtain ⟨hn, hl⟩ := h w (List.mem_cons_self w ws)
      obtain ⟨rs', hrs⟩ := ih (wid + 1) (fun x hx => h x (List.mem_cons_of_mem w hx))
      rcases hr : renderRow wid w with _ | r
      · rcases hn' : w.name with _ | nm
        · rw [hn'] at hn; simp at hn
        · rcases hl' : w.length with _ | ln
          · rw [hl'] at hl; simp at hl
          · rw [renderRow, hn', hl'] at hr
            exact absurd hr (by simp)
      · exact ⟨r :: rs', by simp [renderRows, hr, hrs]⟩

theorem renderRows_head (wid : Nat) (ws : List Whale) (rs : List (List String))
    (h : renderRows wid ws = some rs) :
    ∀ (i : Nat) (r : List String), rs[i]? = some r → r.head? = some (toString (wid + i)) := by
  induction ws generalizing wid rs with
  | nil =>
      simp only [renderRows, Option.some.injEq] at h
      subst h
      intro i r hr
      simp at hr
  | cons w ws ih =>
      simp only [renderRows] at h
      rcases h1 : renderRow wid w with _ | r0 <;> rw [h1] at h
      · exact absurd h (by simp)
      · rcases h2 : renderRows (wid + 1) ws with _ | rs' <;> rw [h2] at h
        · exact absurd h (by simp)
        · cases h
          intro i r hr
          cases i with
          | zero =>
              simp only [List.getElem?_cons_zero, Option.some.injEq] at hr
              subst hr
              rcases hn : w.name with _ | nm
              · rw [renderRow, hn] at h1
                exact absurd h1 (by simp)
              · rcases hl : w.length with _ | ln
                · rw [renderRow, hn, hl] at h1
                  exact absurd h1 (by simp)
                · rw [renderRow, hn, hl] at h1
                  cases h1
                  simp
          | succ i =>
              simp only [List.getElem?_cons_succ] at hr
              have := ih (wid + 1) rs' h2 i r hr
              rw [this]
              congr 2
              omega

theorem renderTable_eq (ws : List Whale) (t : DisplayTable)
    (h : renderTable ws = some t) :
    ∃ rows, renderRows 1 ws = some rows ∧
      t = { title := "Species of Whale",
            caption := "Streaming Structured responses from GPT-4",
            width := 120,
            columns := ["ID", "Name", "Avg. Length (m)", "Avg. Weight (kg)",
                        "Ocean", "Description"],
            rows := rows } := by
  simp only [renderTable] at h
  rcases h1 : renderRows 1 ws with _ | rows <;> rw [h1] at h
  · exact absurd h (by simp)
  · cases h
    exact ⟨rows, rfl, rfl⟩

theorem renderTable_rows_length (ws : List Whale) (t : DisplayTable)
    (h : renderTable ws = some t) : t.rows.length = ws.length := by
  obtain ⟨rows, h1, rfl⟩ := renderTable_eq ws t h
  exact renderRows_length 1 ws rows h1

theorem getLast?_mem_list {α : Type _} {l : List α} {a : α} (h : a ∈ l.getLast?) :
    a ∈ l := by
  obtain ⟨hne, rfl⟩ := List.mem_getLast?_eq_getLast h
  exact List.getLast_mem hne

theorem getLast?_cons_of_ne_nil {α : Type _} (x : α) (l : List α) (h : l ≠ []) :
    (x :: l).getLast? = l.getLast? := by
  cases l with
  | nil => exact absurd rfl h
  | cons y l => exact List.getLast?_cons_cons

theorem validateListAux_snd_ne_nil (ap : Bool) (idx : Nat) (c : RawCandidate)
    (cs : List RawCandidate) : (validateListAux ap idx (c :: cs)).2 ≠ [] := by
  intro hnil
  have := validateListAux_snd_length ap idx (c :: cs)
  rw [hnil] at this
  simp at this

theorem validateListAux_snd_getLast (ap : Bool) (idx : Nat) (cs : List RawCandidate)
    (c : RawCandidate) (h : cs.getLast? = some c) :
    ∃ j, (validateListAux ap idx cs).2.getLast? = some (validateCandidate j ap c).2 := by
  induction cs generalizing idx with
  | nil => simp at h
  | cons a cs ih =>
      cases cs with
      | nil =>
          simp only [List.getLast?_singleton, Option.some.injEq] at h
          subst h
          exact ⟨idx, by simp [validateListAux]⟩
      | cons a' cs' =>
          rw [List.getLast?_cons_cons] at h
          obtain ⟨j, hj⟩ := ih (idx + 1) h
          refine ⟨j, ?_⟩
          simp only [validateListAux]
          rw [getLast?_cons_of_ne_nil _ _ (validateListAux_snd_ne_nil ap (idx + 1) a' cs')]
          exact hj

theorem validateCandidate_snd_name_none (idx : Nat) (am : Bool) (c : RawCandidate)
    (h : c.name = none) : (validateCandidate idx am c).2.name = none := by
  simp [validateCandidate, vStr, h]

theorem validateCandidate_snd_length_none (idx : Nat) (am : Bool) (c : RawCandidate)
    (h : c.length = none) : (validateCandidate idx am c).2.length = none := by
  simp [validateCandidate, vNum, h]

theorem validateCandidate_snd_weight_ge (idx : Nat) (am : Bool) (c : RawCandidate)
    (v : Int) (h : (validateCandidate idx am c).2.weight = some v) : 50 ≤ v := by
  rcases hw : c.weight with _ | jv
  · simp [validateCandidate, vNum, hw] at h
  · cases jv with
    | str s => simp [validateCandidate, vNum, hw] at h
    | num n =>
        by_cases h50 : (50 : Int) ≤ n
        · simp [validateCandidate, vNum, hw, h50] at h
          omega
        · simp [validateCandidate, vNum, hw, h50] at h

theorem validateListAux_snd_weight_ge (ap : Bool) (idx : Nat) (cs : List RawCandidate)
    (w : Whale) (hw : w ∈ (validateListAux ap idx cs).2) (v : Int)
    (hv : w.weight = some v) : 50 ≤ v := by
  induction cs generalizing idx with
  | nil => simp [validateListAux] at hw
  | cons c cs ih =>
      cases cs with
      | nil =>
          simp only [validateListAux, List.mem_singleton] at hw
          subst hw
          exact validateCandidate_snd_weight_ge idx ap c v hv
      | cons c' cs' =>
          simp only [validateListAux, List.mem_cons] at hw
          rcases hw with rfl | hw
          · exact validateCandidate_snd_weight_ge idx false c v hv
          · exact ih (idx + 1) hw

/-! ### Concrete inputs used in witnesses and counterexamples -/

/-- A fully complete, well-typed candidate. -/
def candComplete : RawCandidate :=
  ⟨some (JsonVal.str "Blue Whale"), some (JsonVal.num 25), some (JsonVal.num 120000),
   some (JsonVal.str "Pacific"), some (JsonVal.str "Largest animal")⟩

/-- A well-typed candidate missing the required `name` field. -/
def candNoName : RawCandidate :=
  ⟨none, some (JsonVal.num 15), none, none, none⟩

/-- A candidate whose `weight` value `4` violates the `ge=50` constraint. -/
def candBadWeight : RawCandidate :=
  ⟨some (JsonVal.str "Minke"), some (JsonVal.num 8), some (JsonVal.num 4), none, none⟩

/-! ### Claim theorems -/

/-- **C1**: for a parsed snapshot whose candidates are all well-typed (so missing
required fields are the only possible violations), the driver raises (fatal
`MissingRequired`) if and only if some interior record is missing a required
field, or the run is at finality and the trailing record is missing one; a
trailing-record gap while streaming is never fatal. -/
theorem c1_missingRequired_fatal_iff (cs : List RawCandidate) (last : Bool)
    (hty : ∀ c ∈ cs, typeOk c = true) :
    (driverStep ⟨some cs⟩ last).isFatal = true ↔
      ((∃ c ∈ cs.dropLast, missingReq c = true) ∨
       (last = true ∧ ∃ c ∈ cs.getLast?, missingReq c = true)) := by
  rw [driverStep_some_fatal_iff, ne_eq, validateListAux_errs_nil]
  cases last with
  | false =>
      simp only [Bool.not_false]
      constructor
      · intro hne
        left
        by_contra hcon
        push_neg at hcon
        apply hne
        constructor
        · intro c hc
          refine ⟨hty c (List.dropLast_subset cs hc), ?_⟩
          have := hcon c hc
          simpa using this
        · intro c hc
          exact ⟨hty c (getLast?_mem_list hc), Or.inl trivial⟩
      · rintro (⟨c, hc, hm⟩ | ⟨hff, -⟩)
        · rintro ⟨hA, -⟩
          have := (hA c hc).2
          rw [hm] at this
          cases this
        · simp at hff
  | true =>
      simp only [Bool.not_true]
      constructor
      · intro hne
        by_contra hcon
        push_neg at hcon
        obtain ⟨h1, h2⟩ := hcon
        apply hne
        refine ⟨fun c hc => ⟨hty c (List.dropLast_subset cs hc), by simpa using h1 c hc⟩,
                fun c hc => ⟨hty c (getLast?_mem_list hc),
                  Or.inr (by simpa using h2 trivial c hc)⟩⟩
      · rintro (⟨c, hc, hm⟩ | ⟨-, c, hc, hm⟩) ⟨hA, hB⟩
        · have := (hA c hc).2
          rw [hm] at this
          cases this
        · rcases (hB c hc).2 with h | h
          · simp at h
          · rw [hm] at h
            cases h

theorem c1_missingRequired_fatal_iff_witness :
    (driverStep ⟨some [candNoName, candComplete]⟩ false).isFatal = true ↔
      ((∃ c ∈ ([candNoName, candComplete] : List RawCandidate).dropLast,
          missingReq c = true) ∨
       (false = true ∧ ∃ c ∈ ([candNoName, candComplete] : List RawCandidate).getLast?,
          missingReq c = true)) :=
  c1_missingRequired_fatal_iff [candNoName, candComplete] false (by decide)

/-- **C2**: while streaming (`is_final = false`, so `allow_partial = true`),
a snapshot whose interior candidates are complete and well typed and whose
trailing candidate is well typed validates successfully, producing one
record per candidate; a required field absent from the trailing candidate
is simply absent from the trailing record — no default is substituted. -/
theorem c2_trailing_partial_ok (cs : List RawCandidate)
    (hint : ∀ c ∈ cs.dropLast, typeOk c = true ∧ missingReq c = false)
    (htrail : ∀ c ∈ cs.getLast?, typeOk c = true) :
    ∃ ws, validate_structured_result ⟨some cs⟩ true = .ok ws ∧
      ws.length = cs.length ∧
      ∀ c ∈ cs.getLast?, ∀ w ∈ ws.getLast?,
        (c.name = none → w.name = none) ∧ (c.length = none → w.length = none) := by
  have hnil : (validateListAux true 0 cs).1 = [] := by
    rw [validateListAux_errs_nil]
    exact ⟨hint, fun c hc => ⟨htrail c hc, Or.inl rfl⟩⟩
  refine ⟨(validateListAux true 0 cs).2, ?_, validateListAux_snd_length true 0 cs, ?_⟩
  · rw [validate_some_ok_iff]
    exact ⟨hnil, rfl⟩
  · intro c hc w hw
    obtain ⟨j, hj⟩ := validateListAux_snd_getLast true 0 cs c hc
    rw [Option.mem_def, hj] at hw
    injection hw with hw
    subst hw
    exact ⟨validateCandidate_snd_name_none j true c,
           validateCandidate_snd_length_none j true c⟩

theorem c2_trailing_partial_ok_witness :
    ∃ ws, validate_structured_result ⟨some [candComplete, candNoName]⟩ true = .ok ws ∧
      ws.length = ([candComplete, candNoName] : List RawCandidate).length ∧
      ∀ c ∈ ([candComplete, candNoName] : List RawCandidate).getLast?, ∀ w ∈ ws.getLast?,
        (c.name = none → w.name = none) ∧ (c.length = none → w.length = none) :=
  c2_trailing_partial_ok [candComplete, candNoName] (by decide) (by decide)

/-- **C3** counterexample: on a final snapshot whose top-level collection is
still absent, the loop body silently skips — the suppression test at
`src/main.py` lines 54-57 does not consult `last` — whereas the claim
demands a fatal `MalformedFinalOutput` instead of a silent skip. -/
theorem c3_final_absent_collection_skips :
    driverStep ⟨none⟩ true = StepResult.skip ∧
      (driverStep ⟨none⟩ true).isFatal = false := by
  exact ⟨rfl, rfl⟩

/-- **C3** (amended): a snapshot whose top-level collection has not yet
appeared is skipped without rendering and without error for *both* values of
`is_final`; in particular, at finality no fatal error is raised for it — the
error-content suppression is blind to finality. -/
theorem c3_absent_collection_always_skips (last : Bool) :
    driverStep ⟨none⟩ last = StepResult.skip := by
  cases last <;> rfl

/-- **C4** counterexample: while streaming, the validator can produce a
record sequence whose trailing record lacks the required `name` field
(`allow_partial` tolerates it); the renderer's unguarded `whale["name"]`
subscript then fails (KeyError) instead of rendering a placeholder, so the
driver cycle ends in a render error, not a rendered table. -/
theorem c4_partial_record_render_fails :
    validate_structured_result ⟨some [candNoName]⟩ true =
      .ok [⟨none, some 15, none, none, none⟩] ∧
    renderTable [⟨none, some 15, none, none, none⟩] = none ∧
    driverStep ⟨some [candNoName]⟩ false = StepResult.renderError := by
  exact ⟨rfl, rfl, rfl⟩

/-- **C4** (amended): rendering takes only the record sequence — `is_final`
is not an input of the renderer — and succeeds on every record sequence in
which each record has its required `name` and `length` fields present
(absent optional fields render as placeholders, per the placeholder
theorems); only a partial trailing record lacking `name` or `length` makes
the table build fail with a lookup error. -/
theorem c4_render_total_on_required_present (ws : List Whale)
    (h : ∀ w ∈ ws, w.name.isSome = true ∧ w.length.isSome = true) :
    ∃ t, renderTable ws = some t := by
  obtain ⟨rs, hrs⟩ := renderRows_total 1 ws h
  refine ⟨⟨"Species of Whale", "Streaming Structured responses from GPT-4", 120,
          ["ID", "Name", "Avg. Length (m)", "Avg. Weight (kg)", "Ocean", "Description"],
          rs⟩, ?_⟩
  simp only [renderTable, hrs]

theorem c4_render_total_on_required_present_witness :
    ∃ t, renderTable [⟨some "Blue Whale", some 25, none, some "Pacific", none⟩] = some t :=
  c4_render_total_on_required_present
    [⟨some "Blue Whale", some 25, none, some "Pacific", none⟩] (by decide)

/-- **C5**: a snapshot containing any candidate with a wrong-typed field or
a violated constraint (e.g. a `weight` below 50) makes the run raise for
every value of `is_final`: type and constraint errors are never suppressed
as "still streaming", at any stream position. -/
theorem c5_type_constraint_always_fatal (cs : List RawCandidate) (last : Bool)
    (h : ∃ c ∈ cs, typeOk c = false) :
    (driverStep ⟨some cs⟩ last).isFatal = true := by
  rw [driverStep_some_fatal_iff]
  intro hnil
  rw [validateListAux_errs_nil] at hnil
  obtain ⟨c, hc, hbad⟩ := h
  have hne : cs ≠ [] := by
    intro h0
    rw [h0] at hc
    simp at hc
  have ha := List.getLast?_eq_getLast_of_ne_nil hne
  have hsplit := List.dropLast_append_getLast? (cs.getLast hne) (Option.mem_def.mpr ha)
  rw [← hsplit] at hc
  rcases List.mem_append.mp hc with hd | hl
  · have := (hnil.1 c hd).1
    rw [hbad] at this
    cases this
  · have hceq : c = cs.getLast hne := by simpa using hl
    have := (hnil.2 (cs.getLast hne) (Option.mem_def.mpr ha)).1
    rw [← hceq, hbad] at this
    cases this

theorem c5_type_constraint_always_fatal_witness :
    (driverStep ⟨some [candBadWeight]⟩ false).isFatal = true :=
  c5_type_constraint_always_fatal [candBadWeight] false
    ⟨candBadWeight, by decide, by decide⟩

/-- **C6**: the empty final snapshot — the top-level collection parsed with
zero candidates and `is_final = true` — validates successfully to the empty
record sequence and the driver renders a table with zero data rows: neither
an error nor a suppressed cycle. -/
theorem c6_empty_final_renders_zero_rows :
    validate_structured_result ⟨some []⟩ false = .ok [] ∧
    ∃ t, driverStep ⟨some []⟩ true = StepResult.rendered t ∧ t.rows = [] := by
  exact ⟨rfl, _, rfl, rfl⟩

theorem driverStep_rendered (s : Snapshot) (last : Bool) (t : DisplayTable)
    (h : driverStep s last = StepResult.rendered t) :
    ∃ cs ws, s.response = some cs ∧
      validate_structured_result s (!last) = .ok ws ∧
      ws.length = cs.length ∧ renderTable ws = some t := by
  rcases s with ⟨_ | cs⟩
  · have hskip : driverStep ⟨none⟩ last = StepResult.skip := by cases last <;> rfl
    rw [hskip] at h
    cases h
  · simp only [driverStep] at h
    rcases hv : validate_structured_result ⟨some cs⟩ (!last) with errs | ws
    · rw [hv] at h
      by_cases hs : suppressible errs = true <;> simp [hs] at h
    · rw [hv] at h
      simp only [] at h
      rcases hr : renderTable ws with _ | t' <;> rw [hr] at h <;> simp at h
      subst h
      refine ⟨cs, ws, rfl, rfl, ?_, hr⟩
      have hok := (validate_some_ok_iff cs (!last) ws).mp hv
      rw [hok.2]
      exact validateListAux_snd_length _ 0 cs

/-- **C7**: in the rendered row of a record whose required fields are
present, an absent optional field — `ocean`, and likewise `weight` and
`description` — shows the placeholder glyph `…` (which is not the empty
string), and building the row succeeds. -/
theorem c7_absent_optional_renders_placeholder (wid : Nat) (w : Whale)
    (hn : w.name.isSome = true) (hl : w.length.isSome = true) :
    ∃ row, renderRow wid w = some row ∧
      (w.ocean = none → row[4]? = some "…") ∧
      (w.weight = none → row[3]? = some "…") ∧
      (w.description = none → row[5]? = some "…") ∧
      ("…" : String) ≠ "" := by
  rcases hn' : w.name with _ | nm
  · rw [hn'] at hn
    simp at hn
  · rcases hl' : w.length with _ | ln
    · rw [hl'] at hl
      simp at hl
    · refine ⟨_, by rw [renderRow, hn', hl'], ?_, ?_, ?_, by decide⟩
      · intro ho
        simp [ho]
      · intro hw
        simp [hw]
      · intro hd
        simp [hd]

theorem c7_absent_optional_renders_placeholder_witness :
    ∃ row, renderRow 1 (⟨some "Orca", some 8, none, none, none⟩ : Whale) = some row ∧
      ((⟨some "Orca", some 8, none, none, none⟩ : Whale).ocean = none →
        row[4]? = some "…") ∧
      ((⟨some "Orca", some 8, none, none, none⟩ : Whale).weight = none →
        row[3]? = some "…") ∧
      ((⟨some "Orca", some 8, none, none, none⟩ : Whale).description = none →
        row[5]? = some "…") ∧
      ("…" : String) ≠ "" :=
  c7_absent_optional_renders_placeholder 1 ⟨some "Orca", some 8, none, none, none⟩
    (by decide) (by decide)

/-- **C8**: rendering is deterministic and idempotent — equal record
sequences yield one identical table — and any built table carries the fixed
title and column headers, with data rows numbered 1-based in sequence
order. -/
theorem c8_render_deterministic_numbered (ws₁ ws₂ : List Whale) (t : DisplayTable)
    (heq : ws₁ = ws₂) (h : renderTable ws₁ = some t) :
    renderTable ws₂ = some t ∧
      t.title = "Species of Whale" ∧
      t.columns = ["ID", "Name", "Avg. Length (m)", "Avg. Weight (kg)",
                   "Ocean", "Description"] ∧
      ∀ (i : Nat) (r : List String), t.rows[i]? = some r →
        r.head? = some (toString (i + 1)) := by
  subst heq
  obtain ⟨rows, h1, rfl⟩ := renderTable_eq ws₁ t h
  refine ⟨h, rfl, rfl, ?_⟩
  intro i r hr
  have hh := renderRows_head 1 ws₁ rows h1 i r hr
  rw [Nat.add_comm i 1]
  exact hh

/-- The whale record and table used in the rendering witnesses. -/
def whaleOrca : Whale := ⟨some "Orca", some 8, none, none, none⟩

def tableOrca : DisplayTable :=
  ⟨"Species of Whale", "Streaming Structured responses from GPT-4", 120,
   ["ID", "Name", "Avg. Length (m)", "Avg. Weight (kg)", "Ocean", "Description"],
   [["1", "Orca", "8", "…", "…", "…"]]⟩

theorem c8_render_deterministic_numbered_witness :
    renderTable [whaleOrca] = some tableOrca ∧
      tableOrca.title = "Species of Whale" ∧
      tableOrca.columns = ["ID", "Name", "Avg. Length (m)", "Avg. Weight (kg)",
                           "Ocean", "Description"] ∧
      ∀ (i : Nat) (r : List String), tableOrca.rows[i]? = some r →
        r.head? = some (toString (i + 1)) :=
  c8_render_deterministic_numbered [whaleOrca] [whaleOrca] tableOrca rfl (by decide)

/-- **C9**: under the producer's monotone-superset precondition
(`snapGrows`), the row count of rendered tables never decreases: whenever a
later snapshot extends an earlier one and both driver cycles render, the
later table has at least as many rows.  Applied along consecutive rendered
cycles of a run, this is the monotone-row-count invariant. -/
theorem c9_row_count_monotone (s₁ s₂ : Snapshot) (l₁ l₂ : Bool)
    (t₁ t₂ : DisplayTable) (hg : snapGrows s₁ s₂)
    (h₁ : driverStep s₁ l₁ = StepResult.rendered t₁)
    (h₂ : driverStep s₂ l₂ = StepResult.rendered t₂) :
    t₁.rows.length ≤ t₂.rows.length := by
  obtain ⟨cs₁, ws₁, hs₁, hv₁, hlen₁, hr₁⟩ := driverStep_rendered s₁ l₁ t₁ h₁
  obtain ⟨cs₂, ws₂, hs₂, hv₂, hlen₂, hr₂⟩ := driverStep_rendered s₂ l₂ t₂ h₂
  obtain ⟨r₁⟩ := s₁
  obtain ⟨r₂⟩ := s₂
  have e₁ : r₁ = some cs₁ := hs₁
  have e₂ : r₂ = some cs₂ := hs₂
  subst e₁
  subst e₂
  simp only [snapGrows] at hg
  obtain ⟨hle, -⟩ := hg
  have hR₁ := renderTable_rows_length ws₁ t₁ hr₁
  have hR₂ := renderTable_rows_length ws₂ t₂ hr₂
  omega

/-- Tables used in the row-count monotonicity witness. -/
def tableOneBlue : DisplayTable :=
  ⟨"Species of Whale", "Streaming Structured responses from GPT-4", 120,
   ["ID", "Name", "Avg. Length (m)", "Avg. Weight (kg)", "Ocean", "Description"],
   [["1", "Blue Whale", "25", "120000", "Pacific", "Largest animal"]]⟩

def tableTwoBlue : DisplayTable :=
  ⟨"Species of Whale", "Streaming Structured responses from GPT-4", 120,
   ["ID", "Name", "Avg. Length (m)", "Avg. Weight (kg)", "Ocean", "Description"],
   [["1", "Blue Whale", "25", "120000", "Pacific", "Largest animal"],
    ["2", "Blue Whale", "25", "120000", "Pacific", "Largest animal"]]⟩

theorem c9_row_count_monotone_witness :
    tableOneBlue.rows.length ≤ tableTwoBlue.rows.length :=
  c9_row_count_monotone ⟨some [candComplete]⟩ ⟨some [candComplete, candComplete]⟩
    false false tableOneBlue tableTwoBlue
    (by
      simp only [snapGrows]
      refine ⟨by decide, ?_⟩
      intro i c₁ c₂ h₁ h₂
      cases i with
      | zero =>
          simp only [List.getElem?_cons_zero, Option.some.injEq] at h₁ h₂
          subst h₁
          subst h₂
          simp [candGrows, candComplete]
      | succ i => simp at h₁)
    (by decide) (by decide)

/-- **C10**: for validator-produced records, a present-but-empty optional
string (`ocean` or `description` equal to `""`) renders as the placeholder
glyph — indistinguishable in the display from an absent field — while a
present `weight` is guaranteed by the validated `ge=50` constraint to be at
least 50, hence truthy, so it renders as the number, never conflated with
the placeholder. -/
theorem c10_falsy_optional_conflation (cs : List RawCandidate) (ap : Bool)
    (ws : List Whale) (hok : validate_structured_result ⟨some cs⟩ ap = .ok ws)
    (w : Whale) (hw : w ∈ ws) (wid : Nat) (row : List String)
    (hrow : renderRow wid w = some row) :
    (w.ocean = some "" → row[4]? = some "…") ∧
    (w.description = some "" → row[5]? = some "…") ∧
    (∀ v : Int, w.weight = some v → 50 ≤ v ∧ row[3]? = some (toString v)) := by
  have hws := (validate_some_ok_iff cs ap ws).mp hok
  have hwge : ∀ v : Int, w.weight = some v → 50 ≤ v := by
    intro v hv
    refine validateListAux_snd_weight_ge ap 0 cs w ?_ v hv
    rw [← hws.2]
    exact hw
  rcases hn : w.name with _ | nm
  · simp [renderRow, hn] at hrow
  · rcases hl : w.length with _ | ln
    · simp [renderRow, hn, hl] at hrow
    · simp only [renderRow, hn, hl, Option.some.injEq] at hrow
      subst hrow
      refine ⟨?_, ?_, ?_⟩
      · intro ho
        simp [ho]
      · intro hd
        simp [hd]
      · intro v hv
        have h50 := hwge v hv
        have hne : (v == 0) = false := by
          rw [beq_eq_false_iff_ne]
          omega
        refine ⟨h50, ?_⟩
        simp [hv, hne]

/-- A well-typed candidate whose optional strings are present but empty. -/
def candFalsy : RawCandidate :=
  ⟨some (JsonVal.str "Orca"), some (JsonVal.num 8), some (JsonVal.num 5000),
   some (JsonVal.str ""), some (JsonVal.str "")⟩

theorem c10_falsy_optional_conflation_witness :
    ((⟨some "Orca", some 8, some 5000, some "", some ""⟩ : Whale).ocean = some "" →
      (["1", "Orca", "8", "5000", "…", "…"] : List String)[4]? = some "…") ∧
    ((⟨some "Orca", some 8, some 5000, some "", some ""⟩ : Whale).description = some "" →
      (["1", "Orca", "8", "5000", "…", "…"] : List String)[5]? = some "…") ∧
    (∀ v : Int, (⟨some "Orca", some 8, some 5000, some "", some ""⟩ : Whale).weight = some v →
      50 ≤ v ∧ (["1", "Orca", "8", "5000", "…", "…"] : List String)[3]? = some (toString v)) :=
  c10_falsy_optional_conflation [candFalsy] true
    [⟨some "Orca", some 8, some 5000, some "", some ""⟩] rfl
    ⟨some "Orca", some 8, some 5000, some "", some ""⟩ (by decide) 1
    ["1", "Orca", "8", "5000", "…", "…"] rfl
